import Mathlib

/-!
Verification of the ComfyUI-ModelPulse usage-tracking core (`py/tracking.py`,
`py/storage.py`, `py/model_types.py`) via a shallow embedding in Lean 4.

Modelling conventions:
* Python dictionaries are association lists (`List (String × _)`), preserving
  Python's insertion-order iteration.
* Calendar dates (ISO `YYYY-MM-DD` strings in the source) are modelled as `Int`
  day ordinals: lexicographic order on ISO date strings coincides with
  chronological order, and `timedelta(days = k)` subtraction becomes `- k`.
* Full timestamps (`isoformat() + "Z"` strings) are opaque `String` values: the
  claims only copy and compare them for equality.
* Loosely-typed JSON values flowing through extraction are the `JValue` type;
  Python operations that raise (`.get` on a non-dict, `in` on a non-string)
  are modelled with `Except String`.
-/

/-- A loosely typed JSON-like value, as handled by the extraction engine. -/
inductive JValue where
  | str (s : String)
  | int (n : Int)
  | bool (b : Bool)
  | null
  | arr (elems : List JValue)
  | obj (fields : List (String × JValue))

/-- Association-list field lookup, mirroring Python `dict.__getitem__` /
`dict.get` on string keys (first binding wins). -/
def alistGet {β : Type} (k : String) : List (String × β) → Option β
  | [] => none
  | (k', v) :: rest => if k' = k then some v else alistGet k rest

/-- Python `node_data.get(key)` on a `JValue`: succeeds with an optional value
on a dict, raises `AttributeError` on anything else. -/
def jGet (v : JValue) (k : String) : Except String (Option JValue) :=
  match v with
  | .obj fields => .ok (alistGet k fields)
  | _ => .error "AttributeError: object has no attribute get"

/-- A model reference extracted from a prompt: the dict
`{"category": ..., "name": ..., "model_id": ...}` built in `tracking.py`. -/
structure ModelRef where
  category : String
  name : String
  model_id : String
deriving Repr, DecidableEq

/-- Builds the reference dict of `tracking.py` lines 80-85 and 100-105:
`model_id = f"{category}/{value}"`. -/
def mkModelRef (category value : String) : ModelRef :=
  { category := category, name := value, model_id := category ++ "/" ++ value }

/-- The static loader table `MODEL_LOADERS` of `model_types.py`; a bare string
input key in the source stands for the one-element list (the code normalises
this at `tracking.py` lines 74-75). -/
def MODEL_LOADERS : List (String × (String × List String)) :=
  [ ("CheckpointLoaderSimple", ("checkpoint", ["ckpt_name"])),
    ("CheckpointLoader", ("checkpoint", ["ckpt_name"])),
    ("LoraLoader", ("lora", ["lora_name"])),
    ("LoraLoaderModelOnly", ("lora", ["lora_name"])),
    ("VAELoader", ("vae", ["vae_name"])),
    ("ControlNetLoader", ("controlnet", ["control_net_name"])),
    ("CLIPLoader", ("clip", ["clip_name"])),
    ("DualCLIPLoader", ("clip", ["clip_name1", "clip_name2"])),
    ("UNETLoader", ("unet", ["unet_name"])),
    ("UpscaleModelLoader", ("upscaler", ["model_name"])),
    ("StyleModelLoader", ("style_model", ["style_model_name"])),
    ("GLIGENLoader", ("gligen", ["gligen_name"])),
    ("UnetLoaderGGUF", ("gguf", ["unet_name"])),
    ("UnetLoaderGGUFAdvanced", ("gguf", ["unet_name"])),
    ("CLIPLoaderGGUF", ("gguf", ["clip_name"])),
    ("DualCLIPLoaderGGUF", ("gguf", ["clip_name1", "clip_name2"])),
    ("TripleCLIPLoaderGGUF", ("gguf", ["clip_name1", "clip_name2", "clip_name3"])),
    ("QuadrupleCLIPLoaderGGUF",
      ("gguf", ["clip_name1", "clip_name2", "clip_name3", "clip_name4"])) ]

/-- The ordered fallback pattern list `LOADER_PATTERNS` of `model_types.py`:
`(pattern_in_class_name, category, possible_input_keys)`. -/
def LOADER_PATTERNS : List (String × String × List String) :=
  [ ("Checkpoint", "checkpoint", ["ckpt_name", "checkpoint", "model_name"]),
    ("Lora", "lora", ["lora_name", "lora"]),
    ("VAE", "vae", ["vae_name", "vae"]),
    ("ControlNet", "controlnet", ["control_net_name", "controlnet", "control_net"]),
    ("CLIP", "clip", ["clip_name", "clip"]),
    ("UNET", "unet", ["unet_name", "unet"]),
    ("Upscale", "upscaler", ["model_name", "upscale_model"]) ]

/-- Does the first character list begin with the second? (helper for substring
containment). -/
def startsWithChars : List Char → List Char → Bool
  | _, [] => true
  | [], _ :: _ => false
  | a :: as, b :: bs => a == b && startsWithChars as bs

/-- Does the first character list contain the second as a contiguous run?
(Python `needle in haystack` on strings.) -/
def hasSubChars : List Char → List Char → Bool
  | s, pat => if startsWithChars s pat then true else
      match s with
      | [] => false
      | _ :: rest => hasSubChars rest pat

/-- Python substring test `pat in s` on strings. -/
def strHasSub (s pat : String) : Bool :=
  hasSubChars s.toList pat.toList

/-- Python `str.lower()` (per-character ASCII lowering; the loader patterns
and type names are ASCII). Defined by explicit character mapping so that it
evaluates by kernel reduction. -/
def lowerStr (s : String) : String :=
  String.mk (s.toList.map Char.toLower)

/-- Python truthiness-plus-`isinstance(value, str)` test of
`tracking.py` lines 79 and 99: keeps exactly non-empty string values. -/
def goodStrValue : Option JValue → Option String
  | some (.str s) => if s = "" then none else some s
  | _ => none

/-- Embeds `ModelTracker._extract_from_inputs` (`tracking.py` lines 68-87):
every listed key with a non-empty string value yields one reference; a
non-dict `inputs` raises on the first key access. -/
def extract_from_inputs (category : String) (input_keys : List String)
    (inputs : JValue) : Except String (List ModelRef) :=
  match input_keys with
  | [] => .ok []
  | k :: rest =>
      match jGet inputs k with
      | .error e => .error e
      | .ok v =>
          match extract_from_inputs category rest inputs with
          | .error e => .error e
          | .ok tail =>
              match goodStrValue v with
              | some s => .ok (mkModelRef category s :: tail)
              | none => .ok tail

/-- Inner key scan of `ModelTracker._extract_from_patterns` (`tracking.py`
lines 97-106): first candidate key with a non-empty string value wins and the
scan stops (`break`). -/
def firstGoodKey (inputs : JValue) : List String → Except String (Option String)
  | [] => .ok none
  | k :: rest =>
      match jGet inputs k with
      | .error e => .error e
      | .ok v =>
          match goodStrValue v with
          | some s => .ok (some s)
          | none => firstGoodKey inputs rest

/-- Outer pattern scan of `ModelTracker._extract_from_patterns` (`tracking.py`
lines 95-107): the first pattern whose substring occurs case-insensitively in
the class type is used and the scan stops (`break`), whether or not a key
matched. -/
def patternScan (class_type : String) (inputs : JValue) :
    List (String × String × List String) → Except String (List ModelRef)
  | [] => .ok []
  | (pat, category, keys) :: rest =>
      if strHasSub (lowerStr class_type) (lowerStr pat) then
        match firstGoodKey inputs keys with
        | .error e => .error e
        | .ok (some s) => .ok [mkModelRef category s]
        | .ok none => .ok []
      else patternScan class_type inputs rest

/-- Embeds `ModelTracker._extract_from_patterns` (`tracking.py` lines 89-109). -/
def extract_from_patterns (class_type : String) (inputs : JValue) :
    Except String (List ModelRef) :=
  patternScan class_type inputs LOADER_PATTERNS

/-- Per-node dispatch of `extract_models_from_prompt` (`tracking.py` lines
49-64, before `seen`-deduplication): exact table lookup first, else the
pattern fallback guarded by the case-sensitive `"Loader" in class_type` test. -/
def nodeDispatch (class_type : String) (inputs : JValue) :
    Except String (List ModelRef) :=
  match alistGet class_type MODEL_LOADERS with
  | some (category, input_keys) => extract_from_inputs category input_keys inputs
  | none =>
      if strHasSub class_type "Loader" then extract_from_patterns class_type inputs
      else .ok []

/-- Per-node extraction (`tracking.py` lines 45-64): reads `class_type`
(default `""`) and `inputs` (default `{}`) from the node dict; a non-dict node
raises at the first `.get`, and a non-string `class_type` raises at the dict
membership test or at `"Loader" in class_type`. -/
def nodeRefs (node_data : JValue) : Except String (List ModelRef) :=
  match jGet node_data "class_type" with
  | .error e => .error e
  | .ok cto =>
      match jGet node_data "inputs" with
      | .error e => .error e
      | .ok inpo =>
          match cto.getD (.str "") with
          | .str class_type => nodeDispatch class_type (inpo.getD (.obj []))
          | .arr _ | .obj _ => .error "TypeError: unhashable type"
          | _ => .error "TypeError: argument of type is not iterable"

/-- Threads the `seen` set of `extract_models_from_prompt` (`tracking.py`
lines 53-56 and 61-64) through one node's extracted list: references whose
`model_id` was already seen are dropped, the rest are kept and recorded. -/
def dedupInto (seen : List String) : List ModelRef → List String × List ModelRef
  | [] => (seen, [])
  | m :: ms =>
      if m.model_id ∈ seen then dedupInto seen ms
      else
        let (s, kept) := dedupInto (m.model_id :: seen) ms
        (s, m :: kept)

/-- Main loop of `extract_models_from_prompt` over the remaining nodes, with
the current `seen` set. -/
def extractGo (seen : List String) :
    List (String × JValue) → Except String (List ModelRef)
  | [] => .ok []
  | (_, node_data) :: rest =>
      match nodeRefs node_data with
      | .error e => .error e
      | .ok refs =>
          match extractGo (dedupInto seen refs).1 rest with
          | .error e => .error e
          | .ok tail => .ok ((dedupInto seen refs).2 ++ tail)

/-- Embeds `ModelTracker.extract_models_from_prompt` (`tracking.py` lines
32-66) over a prompt given in dict iteration (insertion) order. -/
def extract_models_from_prompt (prompt : List (String × JValue)) :
    Except String (List ModelRef) :=
  extractGo [] prompt

/-- One entry of a model's daily `usage_log`: `{"date": ..., "count": ...}`. -/
structure LogEntry where
  date : Int
  count : Nat
deriving Repr, DecidableEq

/-- A `ModelRecord` of the persisted schema, as created and mutated by
`ModelTracker.record_usage` (`tracking.py` lines 128-151). -/
structure ModelRecord where
  category : String
  name : String
  path : String
  first_used : String
  last_used : String
  usage_count : Nat
  usage_log : List LogEntry
deriving Repr, DecidableEq

/-- The `metadata` object of the persisted document. -/
structure Metadata where
  tracking_started : String
  last_updated : String
deriving Repr, DecidableEq

/-- The root usage document as held in memory by the tracker: `version`,
`models` (insertion-ordered dict) and `metadata`. -/
structure UsageDatabase where
  version : Int
  models : List (String × ModelRecord)
  metadata : Metadata
deriving Repr, DecidableEq

/-- Embeds `SCHEMA_VERSION` of `storage.py` line 80. -/
def SCHEMA_VERSION : Int := 1

/-- Embeds `create_empty_data` (`storage.py` lines 104-114) at the typed
level used by the tracker. -/
def create_empty_data (now : String) : UsageDatabase :=
  { version := SCHEMA_VERSION, models := [],
    metadata := { tracking_started := now, last_updated := now } }

/-- In-place update of an existing dict key, keeping its position (Python
assignment to a present key). -/
def setModel (k : String) (r : ModelRecord) (models : List (String × ModelRecord)) :
    List (String × ModelRecord) :=
  models.map (fun p => if p.1 = k then (k, r) else p)

/-- The fresh record created for a first-seen model identifier
(`tracking.py` lines 129-138): `path` is set to the identifier itself. -/
def freshRecord (m : ModelRef) (now_iso : String) : ModelRecord :=
  { category := m.category, name := m.name, path := m.model_id,
    first_used := now_iso, last_used := now_iso, usage_count := 0, usage_log := [] }

/-- Daily-log update of `tracking.py` lines 146-151: if the log is non-empty
and its last entry carries today's date, increment that entry's count in
place; otherwise append `{date: today, count: 1}`. -/
def bumpLog (log : List LogEntry) (today : Int) : List LogEntry :=
  match log.getLast? with
  | some e =>
      if e.date = today then log.dropLast ++ [{ date := e.date, count := e.count + 1 }]
      else log ++ [{ date := today, count := 1 }]
  | none => log ++ [{ date := today, count := 1 }]

/-- Field updates applied to a model record on every observation
(`tracking.py` lines 142-151). -/
def touchRecord (r : ModelRecord) (now_iso : String) (today : Int) : ModelRecord :=
  { r with last_used := now_iso, usage_count := r.usage_count + 1,
           usage_log := bumpLog r.usage_log today }

/-- Loop body of `record_usage` for one reference (`tracking.py` lines
125-151): a missing identifier first gets a fresh entry appended to the dict,
and the entry (fresh or existing) is then touched in place. -/
def recordOne (doc : UsageDatabase) (m : ModelRef) (now_iso : String) (today : Int) :
    UsageDatabase :=
  match alistGet m.model_id doc.models with
  | some r =>
      { doc with models := setModel m.model_id (touchRecord r now_iso today) doc.models }
  | none =>
      { doc with models :=
          doc.models ++ [(m.model_id, touchRecord (freshRecord m now_iso) now_iso today)] }

/-- Embeds `ModelTracker.record_usage` (`tracking.py` lines 111-153) on the
in-memory document. In the source `now_iso` and `today` are both derived from
one `datetime.utcnow()` call; the trailing `_save()` is the storage layer's
concern and does not change the in-memory document. -/
def record_usage (doc : UsageDatabase) (models : List ModelRef)
    (now_iso : String) (today : Int) : UsageDatabase :=
  if models.isEmpty then doc
  else models.foldl (fun d m => recordOne d m now_iso today) doc

/-- One invocation of `record_usage`: the reference list plus the timestamp
and calendar date taken from the single `utcnow()` call. -/
structure RecCall where
  refs : List ModelRef
  now_iso : String
  today : Int
deriving Repr, DecidableEq

/-- Replays a sequence of `record_usage` calls from the empty document. -/
def runCalls (calls : List RecCall) : UsageDatabase :=
  calls.foldl (fun d c => record_usage d c.refs c.now_iso c.today) (create_empty_data "t0")

/-- One row of the list returned by `get_usage_data`
(`tracking.py` lines 209-217). -/
structure UsageSummary where
  model_id : String
  category : String
  name : String
  first_used : String
  last_used : String
  usage_count : Nat
  timeframe_count : Nat
deriving Repr, DecidableEq

/-- The value returned by `get_usage_data` (`tracking.py` lines 227-232). -/
structure QueryResult where
  models : List UsageSummary
  metadata : Metadata
  timeframe : String
  sort_by : String
deriving Repr, DecidableEq

/-- Cutoff-date selection of `tracking.py` lines 185-192: subtracting whole
days from a datetime shifts its calendar date by as many days. -/
def timeframeCutoff (timeframe : String) (today : Int) : Option Int :=
  if timeframe = "week" then some (today - 7)
  else if timeframe = "month" then some (today - 30)
  else none

/-- Category filter of `tracking.py` lines 196-197: an absent or empty
`category` argument is falsy in Python, so it disables filtering. -/
def categoryKeeps (category : Option String) (r : ModelRecord) : Bool :=
  match category with
  | none => true
  | some c => if c = "" then true else r.category == c

/-- Timeframe count of `tracking.py` lines 200-207: with a cutoff, the sum of
the counts of log entries dated on or after it; otherwise the lifetime total. -/
def rowCount (r : ModelRecord) (cutoff_date : Option Int) : Nat :=
  match cutoff_date with
  | some c => ((r.usage_log.filter (fun e => decide (c ≤ e.date))).map (fun e => e.count)).sum
  | none => r.usage_count

/-- The summary row appended for one model (`tracking.py` lines 209-217). -/
def summaryRow (model_id : String) (r : ModelRecord) (cutoff_date : Option Int) :
    UsageSummary :=
  { model_id := model_id, category := r.category, name := r.name,
    first_used := r.first_used, last_used := r.last_used,
    usage_count := r.usage_count, timeframe_count := rowCount r cutoff_date }

/-- Sorting of `tracking.py` lines 220-225. Python `list.sort` is a stable
sort; `reverse=True` keeps equal-key elements in encounter order, which is
exactly `mergeSort` with the flipped boolean comparison. -/
def sortRows (sort_by : String) (rows : List UsageSummary) : List UsageSummary :=
  if sort_by = "usage_count" then
    rows.mergeSort (fun a b => b.timeframe_count ≤ a.timeframe_count)
  else if sort_by = "name" then
    rows.mergeSort (fun a b => decide (lowerStr a.name ≤ lowerStr b.name))
  else
    rows.mergeSort (fun a b => decide (b.last_used ≤ a.last_used))

/-- Embeds `ModelTracker.get_usage_data` (`tracking.py` lines 164-232);
`today` is the calendar date of the `utcnow()` call at line 182. -/
def get_usage_data (doc : UsageDatabase) (timeframe sort_by : String)
    (category : Option String) (today : Int) : QueryResult :=
  let cutoff_date := timeframeCutoff timeframe today
  let rows := (doc.models.filter (fun p => categoryKeeps category p.2)).map
    (fun p => summaryRow p.1 p.2 cutoff_date)
  { models := sortRows sort_by rows, metadata := doc.metadata,
    timeframe := timeframe, sort_by := sort_by }

/-- Log filtering applied to one record by `cleanup_old_usage_logs`
(`storage.py` lines 253-256): keep entries dated on or after the cutoff. -/
def cleanRecord (cutoff : Int) (r : ModelRecord) : ModelRecord :=
  { r with usage_log := r.usage_log.filter (fun e => decide (cutoff ≤ e.date)) }

/-- Embeds `cleanup_old_usage_logs` (`storage.py` lines 241-258): every
model's log is filtered to entries dated on or after today minus `max_days`;
`today` is the calendar date of the `utcnow()` call at line 247. -/
def cleanup_old_usage_logs (doc : UsageDatabase) (max_days : Int) (today : Int) :
    UsageDatabase :=
  { doc with models := doc.models.map (fun p => (p.1, cleanRecord (today - max_days) p.2)) }

/-- A persisted model record as the storage layer sees it: only the fields
`migrate_to_v1` reads or writes are given structure; every other JSON field
of the record is carried opaquely in `extra` and never touched. -/
structure LooseRecord where
  usage_log : Option (List LogEntry)
  first_used : Option String
  last_used : Option String
  extra : List (String × String)
deriving Repr, DecidableEq

/-- A persisted root document before migration: `version`, `models` and
`metadata` may each be absent; other top-level JSON fields are carried
opaquely in `extra` and never touched. -/
structure LooseDoc where
  version : Option Int
  models : Option (List (String × LooseRecord))
  metadata : Option Metadata
  extra : List (String × String)
deriving Repr, DecidableEq

/-- Embeds `create_empty_data` (`storage.py` lines 104-114) at the loose
level handled by the storage layer. -/
def create_empty_loose (now : String) : LooseDoc :=
  { version := some SCHEMA_VERSION, models := some [],
    metadata := some { tracking_started := now, last_updated := now }, extra := [] }

/-- Per-record defaulting of `migrate_to_v1` (`storage.py` lines 221-227):
ensure `usage_log` exists (default `[]`) and `first_used` exists (default
`last_used`, falling back to the current time). -/
def fixRecord (now : String) (r : LooseRecord) : LooseRecord :=
  let r1 := match r.usage_log with
    | none => { r with usage_log := some [] }
    | some _ => r
  match r1.first_used with
  | none => { r1 with first_used := some (r1.last_used.getD now) }
  | some _ => r1

/-- Embeds `migrate_to_v1` (`storage.py` lines 207-229). -/
def migrate_to_v1 (now : String) (data : LooseDoc) : LooseDoc :=
  let data1 := match data.models with
    | none => { data with models := some [] }
    | some _ => data
  let data2 := match data1.metadata with
    | none => { data1 with metadata := some { tracking_started := now, last_updated := now } }
    | some _ => data1
  { data2 with models := some ((data2.models.getD []).map (fun p => (p.1, fixRecord now p.2))) }

/-- Embeds `migrate_schema` (`storage.py` lines 178-204). The second
component is the pre-migration backup written to the backup path (`none`
when no migration runs); the version check reads `data.get("version", 0)`. -/
def migrate_schema (now : String) (data : LooseDoc) : LooseDoc × Option LooseDoc :=
  let current_version := data.version.getD 0
  if current_version = SCHEMA_VERSION then (data, none)
  else
    let data1 := if current_version < 1 then migrate_to_v1 now data else data
    ({ data1 with version := some SCHEMA_VERSION }, some data)

/-- Contents of the usage-data file: either raw bytes that fail JSON parsing
or a successfully parsed document. -/
inductive StoredFile where
  | corrupt (raw : String)
  | json (doc : LooseDoc)
deriving Repr, DecidableEq

/-- State of the storage directory: the usage-data file (if present), the
quarantined corrupted files (renaming to a timestamped name appends here) and
the pre-migration backup file. -/
structure Storage where
  main : Option StoredFile
  corrupted_backups : List StoredFile
  migration_backup : Option LooseDoc
deriving Repr, DecidableEq

/-- Timestamp stamping of `save_data` (`storage.py` line 158):
`data["metadata"]["last_updated"] = now` raises `KeyError` when the document
has no `metadata` object. -/
def stampUpdated (data : LooseDoc) (now : String) : Except String LooseDoc :=
  match data.metadata with
  | some md => .ok { data with metadata := some { md with last_updated := now } }
  | none => .error "KeyError: metadata"

/-- Embeds `save_data` (`storage.py` lines 149-175): stamp `last_updated`,
then atomically replace the data file (the temp-file dance collapses to the
replacement; external write failures are outside the model). -/
def save_data (st : Storage) (data : LooseDoc) (now : String) : Except String Storage := do
  let stamped ← stampUpdated data now
  return { st with main := some (.json stamped) }

/-- Embeds `backup_corrupted_file` (`storage.py` lines 232-238): rename the
data file aside under a timestamped name. -/
def backup_corrupted_file (st : Storage) : Storage :=
  match st.main with
  | some f => { st with main := none, corrupted_backups := st.corrupted_backups ++ [f] }
  | none => st

/-- Embeds `load_data` (`storage.py` lines 117-146) as a transition on the
storage state: missing file ⇒ create, save and return an empty document;
parse success ⇒ migrate (recording any pre-migration backup) and return
without re-saving; parse failure ⇒ quarantine the file, then create, save and
return a fresh empty document. -/
def load_data (st : Storage) (now : String) : Except String (LooseDoc × Storage) :=
  match st.main with
  | none => do
      let data := create_empty_loose now
      let st1 ← save_data st data now
      return (data, st1)
  | some (.json raw) =>
      let (data, backup) := migrate_schema now raw
      match backup with
      | some b => .ok (data, { st with migration_backup := some b })
      | none => .ok (data, st)
  | some (.corrupt _) => do
      let st1 := backup_corrupted_file st
      let data := create_empty_loose now
      let st2 ← save_data st1 data now
      return (data, st2)

/-- Lookup distributes over a value-only map of an association list. -/
theorem alistGet_mapValues {β γ : Type} (f : β → γ) (k : String)
    (l : List (String × β)) :
    alistGet k (l.map (fun p => (p.1, f p.2))) = (alistGet k l).map f := by
  induction l with
  | nil => rfl
  | cons p rest ih =>
      simp only [List.map, alistGet]
      split <;> simp [ih]

/-- Lookup in a concatenation tries the left list first. -/
theorem alistGet_append {β : Type} (k : String) (l l' : List (String × β)) :
    alistGet k (l ++ l') =
      match alistGet k l with
      | some v => some v
      | none => alistGet k l' := by
  induction l with
  | nil => rfl
  | cons p rest ih =>
      simp only [List.cons_append, alistGet]
      split <;> simp [ih]

/-- Lookup after an in-place update at a different key is unchanged. -/
theorem alistGet_setModel_ne (k mid : String) (r : ModelRecord)
    (l : List (String × ModelRecord)) (h : k ≠ mid) :
    alistGet mid (setModel k r l) = alistGet mid l := by
  induction l with
  | nil => rfl
  | cons p rest ih =>
      obtain ⟨k1, v1⟩ := p
      simp only [setModel, List.map_cons]
      by_cases hp : k1 = k
      · subst hp
        rw [if_pos rfl]
        simp only [alistGet]
        rw [if_neg h, if_neg h]
        exact ih
      · rw [if_neg hp]
        simp only [alistGet]
        split
        · rfl
        · exact ih

/-- Lookup after an in-place update at a present key returns the new value. -/
theorem alistGet_setModel_eq (k : String) (r r' : ModelRecord)
    (l : List (String × ModelRecord)) (h : alistGet k l = some r) :
    alistGet k (setModel k r' l) = some r' := by
  induction l with
  | nil => simp [alistGet] at h
  | cons p rest ih =>
      obtain ⟨k1, v1⟩ := p
      simp only [setModel, List.map_cons]
      by_cases hp : k1 = k
      · subst hp
        rw [if_pos rfl]
        simp [alistGet]
      · rw [if_neg hp]
        simp only [alistGet, if_neg hp] at h ⊢
        exact ih h

/-- The claim C7: for every document and every positive `max_days`, cleanup
replaces each model's `usage_log` by the order-preserving subsequence of
entries dated on or after today minus `max_days`, keeps every model and every
other record field (`usage_count`, `first_used`, `last_used`, `category`,
`name`, `path`) unchanged, and leaves `version` and `metadata` alone. -/
theorem cleanup_frame (doc : UsageDatabase) (max_days today : Int)
    (_hpos : 0 < max_days) :
    (cleanup_old_usage_logs doc max_days today).version = doc.version ∧
    (cleanup_old_usage_logs doc max_days today).metadata = doc.metadata ∧
    (∀ mid, (alistGet mid (cleanup_old_usage_logs doc max_days today).models).isSome
        = (alistGet mid doc.models).isSome) ∧
    ∀ mid r', alistGet mid (cleanup_old_usage_logs doc max_days today).models = some r' →
      ∃ r, alistGet mid doc.models = some r ∧
        r'.usage_count = r.usage_count ∧
        r'.first_used = r.first_used ∧
        r'.last_used = r.last_used ∧
        r'.category = r.category ∧
        r'.name = r.name ∧
        r'.path = r.path ∧
        r'.usage_log = r.usage_log.filter (fun e => decide (today - max_days ≤ e.date)) ∧
        r'.usage_log.Sublist r.usage_log := by
  refine ⟨rfl, rfl, ?_, ?_⟩
  · intro mid
    simp [cleanup_old_usage_logs, alistGet_mapValues]
  · intro mid r' h
    simp only [cleanup_old_usage_logs, alistGet_mapValues, Option.map_eq_some'] at h
    obtain ⟨r, hr, hr'⟩ := h
    refine ⟨r, hr, ?_⟩
    subst hr'
    refine ⟨rfl, rfl, rfl, rfl, rfl, rfl, rfl, ?_⟩
    exact List.filter_sublist r.usage_log

/-- Witness instantiating `cleanup_frame`: the spec scenario with entries 40
and 10 days old and `max_days = 30`. -/
theorem cleanup_frame_witness :
    (0 : Int) < 30 ∧
    ∀ mid r', alistGet mid (cleanup_old_usage_logs
        { version := 1,
          models := [("checkpoint/a",
            { category := "checkpoint", name := "a", path := "checkpoint/a",
              first_used := "T0", last_used := "T9", usage_count := 7,
              usage_log := [{ date := 60, count := 3 }, { date := 90, count := 4 }] })],
          metadata := { tracking_started := "m0", last_updated := "m1" } }
        30 100).models = some r' →
      ∃ r, alistGet mid
        ({ version := 1,
           models := [("checkpoint/a",
             { category := "checkpoint", name := "a", path := "checkpoint/a",
               first_used := "T0", last_used := "T9", usage_count := 7,
               usage_log := [{ date := 60, count := 3 }, { date := 90, count := 4 }] })],
           metadata := { tracking_started := "m0", last_updated := "m1" } } :
          UsageDatabase).models = some r ∧
        r'.usage_count = r.usage_count ∧
        r'.first_used = r.first_used ∧
        r'.last_used = r.last_used ∧
        r'.category = r.category ∧
        r'.name = r.name ∧
        r'.path = r.path ∧
        r'.usage_log = r.usage_log.filter (fun e => decide (100 - 30 ≤ e.date)) ∧
        r'.usage_log.Sublist r.usage_log :=
  ⟨by decide, (cleanup_frame _ 30 100 (by decide)).2.2.2⟩

/-- The claim C8: loading a storage state whose data file fails to parse
quarantines the file (renames it aside into the timestamped-backup set),
returns a fresh empty document stamped with the current schema version, and
does not propagate any error to the caller (the result is `ok`, not `error`). -/
theorem load_quarantines_corrupt (st : Storage) (raw : String) (now : String)
    (h : st.main = some (.corrupt raw)) :
    ∃ st', load_data st now = .ok (create_empty_loose now, st') ∧
      (create_empty_loose now).version = some SCHEMA_VERSION ∧
      st'.corrupted_backups = st.corrupted_backups ++ [.corrupt raw] ∧
      st'.main = some (.json (create_empty_loose now)) ∧
      st'.migration_backup = st.migration_backup := by
  obtain ⟨m, cb, mb⟩ := st
  have h' : m = some (.corrupt raw) := h
  subst h'
  exact ⟨_, rfl, rfl, rfl, rfl, rfl⟩

/-- Witness instantiating `load_quarantines_corrupt` on a concrete corrupted
storage state. -/
theorem load_quarantines_corrupt_witness :
    ∃ st', load_data { main := some (.corrupt "not json"), corrupted_backups := [],
                        migration_backup := none } "T1"
        = .ok (create_empty_loose "T1", st') ∧
      (create_empty_loose "T1").version = some SCHEMA_VERSION ∧
      st'.corrupted_backups = [] ++ [.corrupt "not json"] ∧
      st'.main = some (.json (create_empty_loose "T1")) ∧
      st'.migration_backup = none :=
  load_quarantines_corrupt
    { main := some (.corrupt "not json"), corrupted_backups := [], migration_backup := none }
    "not json" "T1" rfl

/-- The claim C10: `migrate_schema` never rejects a version mismatch. A
document already at the current schema version is returned untouched with no
backup; any other version (absent, below current, or strictly above current)
first has the unmodified document recorded as the pre-migration backup, has
the v1 defaulting step applied only when the version is below 1, and is then
stamped to the current schema version — a future version is thereby
downgraded with no other change to the document. -/
theorem migrate_schema_behavior (data : LooseDoc) (now : String) :
    (data.version = some SCHEMA_VERSION → migrate_schema now data = (data, none)) ∧
    (data.version.getD 0 ≠ SCHEMA_VERSION →
      (migrate_schema now data).2 = some data ∧
      (1 ≤ data.version.getD 0 →
        (migrate_schema now data).1 = { data with version := some SCHEMA_VERSION }) ∧
      (data.version.getD 0 < 1 →
        (migrate_schema now data).1 =
          { migrate_to_v1 now data with version := some SCHEMA_VERSION })) := by
  constructor
  · intro h
    simp [migrate_schema, h]
  · intro h
    refine ⟨by simp [migrate_schema, h], ?_, ?_⟩
    · intro h1
      have hlt : ¬(data.version.getD 0 < 1) := by omega
      simp [migrate_schema, h, hlt]
    · intro h1
      simp [migrate_schema, h, h1]

/-- Witness instantiating `migrate_schema_behavior` at a future version 3:
the document is backed up, not transformed, and stamped down to version 1. -/
theorem migrate_schema_behavior_witness :
    migrate_schema "T1"
        { version := some 3, models := some [], metadata := some ⟨"a", "b"⟩, extra := [] }
      = ({ version := some SCHEMA_VERSION, models := some [],
           metadata := some ⟨"a", "b"⟩, extra := [] },
         some { version := some 3, models := some [], metadata := some ⟨"a", "b"⟩,
                extra := [] }) := by
  have h := (migrate_schema_behavior
    { version := some 3, models := some [], metadata := some ⟨"a", "b"⟩, extra := [] }
    "T1").2 (by decide)
  obtain ⟨h2, h3, _⟩ := h
  have h4 := h3 (by decide)
  exact Prod.ext_iff.mpr ⟨h4, h2⟩

/-- The claim C4: a node whose declared type name is an exact key of the
static loader table is resolved through that table entry alone — the
pattern-matching fallback is never consulted for it, whatever substrings
(such as `"Loader"`) its name contains. -/
theorem loader_table_precedence (class_type : String) (inputs : JValue)
    (category : String) (input_keys : List String)
    (h : alistGet class_type MODEL_LOADERS = some (category, input_keys)) :
    nodeDispatch class_type inputs = extract_from_inputs category input_keys inputs := by
  simp [nodeDispatch, h]

/-- Witness instantiating `loader_table_precedence` at
`"CheckpointLoaderSimple"` — a name that contains `"Loader"` and matches the
`"Checkpoint"` pattern — with an input dict the pattern path would have
accepted (`checkpoint` key) but the table path ignores: the dispatch follows
the table and yields nothing, while the pattern fallback alone would have
produced a reference. -/
theorem loader_table_precedence_witness :
    alistGet "CheckpointLoaderSimple" MODEL_LOADERS = some ("checkpoint", ["ckpt_name"]) ∧
    nodeDispatch "CheckpointLoaderSimple" (.obj [("checkpoint", .str "sd15.safetensors")])
      = extract_from_inputs "checkpoint" ["ckpt_name"]
          (.obj [("checkpoint", .str "sd15.safetensors")]) ∧
    nodeDispatch "CheckpointLoaderSimple" (.obj [("checkpoint", .str "sd15.safetensors")])
      = .ok [] ∧
    strHasSub "CheckpointLoaderSimple" "Loader" = true ∧
    extract_from_patterns "CheckpointLoaderSimple"
        (.obj [("checkpoint", .str "sd15.safetensors")])
      = .ok [mkModelRef "checkpoint" "sd15.safetensors"] :=
  ⟨rfl,
   loader_table_precedence "CheckpointLoaderSimple"
     (.obj [("checkpoint", .str "sd15.safetensors")]) "checkpoint" ["ckpt_name"] rfl,
   rfl, rfl, rfl⟩

/-- The first fallback pattern whose substring occurs case-insensitively in
the type name, written with `find?` as the specification phrases it. -/
def firstPatternFor (class_type : String) : Option (String × String × List String) :=
  LOADER_PATTERNS.find? (fun t => strHasSub (lowerStr class_type) (lowerStr t.1))

/-- Specification-side description of the pattern fallback: take the first
matching pattern (if any), then the first of its candidate keys holding a
non-empty string value (if any), and emit at most that one reference. -/
def specPatternResult (class_type : String) (fields : List (String × JValue)) :
    List ModelRef :=
  match firstPatternFor class_type with
  | none => []
  | some (_, category, keys) =>
      match keys.findSome? (fun k => goodStrValue (alistGet k fields)) with
      | none => []
      | some s => [mkModelRef category s]

/-- On a dict of inputs, the inner key scan returns the first candidate key's
non-empty string value, `findSome?`-style. -/
theorem firstGoodKey_obj (fields : List (String × JValue)) (keys : List String) :
    firstGoodKey (.obj fields) keys
      = .ok (keys.findSome? (fun k => goodStrValue (alistGet k fields))) := by
  induction keys with
  | nil => rfl
  | cons k rest ih =>
      show (match goodStrValue (alistGet k fields) with
            | some s => Except.ok (some s)
            | none => firstGoodKey (.obj fields) rest)
          = .ok ((k :: rest).findSome? (fun k => goodStrValue (alistGet k fields)))
      rw [List.findSome?_cons]
      cases goodStrValue (alistGet k fields) with
      | none => exact ih
      | some s => rfl

/-- Pattern scan over an arbitrary pattern list agrees with the
find?-then-first-key specification. -/
theorem patternScan_spec (class_type : String) (fields : List (String × JValue))
    (ps : List (String × String × List String)) :
    patternScan class_type (.obj fields) ps
      = .ok (match ps.find? (fun t => strHasSub (lowerStr class_type) (lowerStr t.1)) with
             | none => []
             | some (_, category, keys) =>
                 match keys.findSome? (fun k => goodStrValue (alistGet k fields)) with
                 | none => []
                 | some s => [mkModelRef category s]) := by
  induction ps with
  | nil => rfl
  | cons t rest ih =>
      obtain ⟨pat, category, keys⟩ := t
      rw [List.find?_cons]
      by_cases hm : strHasSub (lowerStr class_type) (lowerStr pat) = true
      · rw [show strHasSub (lowerStr class_type) (lowerStr (pat, category, keys).1)
            = true from hm]
        simp only [patternScan, if_pos hm, firstGoodKey_obj]
        cases List.findSome? (fun k => goodStrValue (alistGet k fields)) keys with
        | none => rfl
        | some s => rfl
      · rw [Bool.not_eq_true] at hm
        rw [show strHasSub (lowerStr class_type) (lowerStr (pat, category, keys).1)
            = false from hm]
        simp only [patternScan]
        rw [if_neg (by simp [hm])]
        exact ih

/-- The claim C5: for a node handled by the pattern-fallback path (a dict of
inputs), extraction uses the first pattern in `LOADER_PATTERNS` whose
substring occurs case-insensitively in the type name, takes that pattern's
first candidate key holding a non-empty string value, scans no further
patterns or keys, and produces at most one reference. -/
theorem pattern_fallback_first_match (class_type : String)
    (fields : List (String × JValue)) :
    extract_from_patterns class_type (.obj fields) = .ok (specPatternResult class_type fields) ∧
    (specPatternResult class_type fields).length ≤ 1 := by
  constructor
  · rw [extract_from_patterns, patternScan_spec]
    rfl
  · unfold specPatternResult
    cases firstPatternFor class_type with
    | none => simp
    | some t =>
        obtain ⟨pat, category, keys⟩ := t
        cases hs : List.findSome? (fun k => goodStrValue (alistGet k fields)) keys <;>
          simp [hs]

/-- Witness instantiating `pattern_fallback_first_match` at a type name
matching both the `"Lora"` and `"CLIP"` patterns, with both of the Lora
pattern's candidate keys present: the earlier pattern (`"Lora"`) and its
earlier key (`lora_name`) win. -/
theorem pattern_fallback_first_match_witness :
    extract_from_patterns "CLIPLoraLoaderCustom"
        (.obj [("lora", .str "l2.safetensors"), ("lora_name", .str "l1.safetensors"),
               ("clip_name", .str "c.safetensors")])
      = .ok (specPatternResult "CLIPLoraLoaderCustom"
          [("lora", .str "l2.safetensors"), ("lora_name", .str "l1.safetensors"),
           ("clip_name", .str "c.safetensors")]) ∧
    specPatternResult "CLIPLoraLoaderCustom"
        [("lora", .str "l2.safetensors"), ("lora_name", .str "l1.safetensors"),
         ("clip_name", .str "c.safetensors")]
      = [mkModelRef "lora" "l1.safetensors"] :=
  ⟨(pattern_fallback_first_match "CLIPLoraLoaderCustom"
      [("lora", .str "l2.safetensors"), ("lora_name", .str "l1.safetensors"),
       ("clip_name", .str "c.safetensors")]).1,
   rfl⟩

/-- Specification-side timeframe count: the total of the counts of the log
entries dated on or after the cutoff, written as a sum of per-entry
contributions over the whole log. -/
def specTimeframeCount (cutoff : Int) (log : List LogEntry) : Nat :=
  (log.map (fun e => if cutoff ≤ e.date then e.count else 0)).sum

/-- The filter-then-sum computed by the query agrees with the per-entry
contribution sum of the specification. -/
theorem rowCount_filter_eq_spec (c : Int) (log : List LogEntry) :
    ((log.filter (fun e => decide (c ≤ e.date))).map (fun e => e.count)).sum
      = specTimeframeCount c log := by
  induction log with
  | nil => rfl
  | cons e rest ih =>
      simp only [specTimeframeCount, List.map_cons, List.sum_cons]
      by_cases hc : c ≤ e.date
      · rw [List.filter_cons, if_pos (by simpa using hc), List.map_cons, List.sum_cons,
            if_pos hc]
        exact congrArg (fun n => e.count + n) ih
      · rw [List.filter_cons, if_neg (by simpa using hc), if_neg hc, Nat.zero_add]
        exact ih

/-- Membership in the sorted result list coincides with membership in the
unsorted row list (all three sort modes are permutations). -/
theorem mem_sortRows (row : UsageSummary) (sort_by : String)
    (rows : List UsageSummary) : row ∈ sortRows sort_by rows ↔ row ∈ rows := by
  unfold sortRows
  split_ifs <;> exact (List.mergeSort_perm _ _).mem_iff

/-- The claim C6: every row the query returns carries a `timeframe_count`
computed from the underlying record as follows — timeframe `"week"` sums the
counts of log entries dated on or after now minus 7 days, `"month"` those on
or after now minus 30 days, and `"all"` (no cutoff) reports the record's
lifetime `usage_count`. -/
theorem query_timeframe_count (doc : UsageDatabase) (timeframe sort_by : String)
    (category : Option String) (today : Int) (row : UsageSummary)
    (hrow : row ∈ (get_usage_data doc timeframe sort_by category today).models) :
    ∃ mid r, (mid, r) ∈ doc.models ∧ row.model_id = mid ∧
      row.usage_count = r.usage_count ∧
      (timeframe = "week" →
        row.timeframe_count = specTimeframeCount (today - 7) r.usage_log) ∧
      (timeframe = "month" →
        row.timeframe_count = specTimeframeCount (today - 30) r.usage_log) ∧
      (timeframe = "all" → row.timeframe_count = r.usage_count) := by
  have hrow' : row ∈ (doc.models.filter (fun p => categoryKeeps category p.2)).map
      (fun p => summaryRow p.1 p.2 (timeframeCutoff timeframe today)) := by
    have := (mem_sortRows row sort_by _).mp hrow
    simpa [get_usage_data] using this
  obtain ⟨p, hp, hrow''⟩ := List.mem_map.mp hrow'
  obtain ⟨hpmem, -⟩ := List.mem_filter.mp hp
  refine ⟨p.1, p.2, hpmem, ?_, ?_, ?_, ?_, ?_⟩ <;> subst hrow''
  · rfl
  · rfl
  · intro h
    subst h
    show rowCount p.2 (some (today - 7)) = _
    rw [show rowCount p.2 (some (today - 7))
        = ((p.2.usage_log.filter (fun e => decide (today - 7 ≤ e.date))).map
            (fun e => e.count)).sum from rfl]
    exact rowCount_filter_eq_spec _ _
  · intro h
    subst h
    show rowCount p.2 (some (today - 30)) = _
    rw [show rowCount p.2 (some (today - 30))
        = ((p.2.usage_log.filter (fun e => decide (today - 30 ≤ e.date))).map
            (fun e => e.count)).sum from rfl]
    exact rowCount_filter_eq_spec _ _
  · intro h
    subst h
    rfl

/-- Sample document for the query witness: one record whose log holds a
40-day-old entry (count 3) and a 2-day-old entry (count 2), as of day 100. -/
def sampleQueryDoc : UsageDatabase :=
  { version := 1,
    models := [("checkpoint/a",
      { category := "checkpoint", name := "a", path := "checkpoint/a",
        first_used := "T0", last_used := "T9", usage_count := 7,
        usage_log := [{ date := 60, count := 3 }, { date := 98, count := 2 }] })],
    metadata := { tracking_started := "m0", last_updated := "m1" } }

/-- The row the query returns for `sampleQueryDoc` with timeframe `"week"`
on day 100: only the 2-day-old entry is counted. -/
def sampleQueryRow : UsageSummary :=
  { model_id := "checkpoint/a", category := "checkpoint", name := "a",
    first_used := "T0", last_used := "T9", usage_count := 7, timeframe_count := 2 }

/-- Witness instantiating `query_timeframe_count` on the spec scenario: with
timeframe `"week"` after a 40-day-old and a 2-day-old log entry, the returned
`timeframe_count` is the week-window sum. -/
theorem query_timeframe_count_witness :
    ∃ mid r, (mid, r) ∈ sampleQueryDoc.models ∧
      sampleQueryRow.model_id = mid ∧
      sampleQueryRow.usage_count = r.usage_count ∧
      ("week" = "week" →
        sampleQueryRow.timeframe_count = specTimeframeCount (100 - 7) r.usage_log) ∧
      ("week" = "month" →
        sampleQueryRow.timeframe_count = specTimeframeCount (100 - 30) r.usage_log) ∧
      ("week" = "all" → sampleQueryRow.timeframe_count = r.usage_count) :=
  query_timeframe_count sampleQueryDoc "week" "last_used" none 100 sampleQueryRow
    ((mem_sortRows sampleQueryRow "last_used" _).mpr (by decide))

/-- Counterexample to the claim C9 as stated: a graph containing a node value
that is not a mapping (here a JSON array) makes the whole extraction raise
(`node_data.get` has no meaning on a list), even though a later well-formed
loader node is present — nothing is skipped and nothing is extracted. -/
theorem extraction_raises_on_nonmapping_node :
    extract_models_from_prompt
      [("1", .arr []),
       ("2", .obj [("class_type", .str "CheckpointLoaderSimple"),
                   ("inputs", .obj [("ckpt_name", .str "sd15.safetensors")])])]
      = .error "AttributeError: object has no attribute get" := rfl

/-- Acceptable `class_type` field for a no-raise run: absent or a string.
Any other value raises at the table-membership or substring test. -/
def okClassTypeField : Option JValue → Bool
  | some (.str _) => true
  | none => true
  | _ => false

/-- Acceptable `inputs` field for a no-raise run: absent or a dict. A
non-dict value raises at `inputs.get` once a loader matches the node. -/
def okInputsField : Option JValue → Bool
  | some (.obj _) => true
  | none => true
  | _ => false

/-- A node value extraction is guaranteed to survive: a dict whose
`class_type` is absent or a string and whose `inputs` is absent or a dict. -/
def wellShapedNode : JValue → Bool
  | .obj fields =>
      okClassTypeField (alistGet "class_type" fields)
        && okInputsField (alistGet "inputs" fields)
  | _ => false

/-- On a dict of inputs the exact-table key scan never raises. -/
theorem extract_from_inputs_obj_ok (category : String)
    (fields : List (String × JValue)) (keys : List String) :
    ∃ l, extract_from_inputs category keys (.obj fields) = .ok l := by
  induction keys with
  | nil => exact ⟨[], rfl⟩
  | cons k rest ih =>
      obtain ⟨l, hl⟩ := ih
      simp only [extract_from_inputs, jGet, hl]
      cases goodStrValue (alistGet k fields) <;> exact ⟨_, rfl⟩

/-- On a dict of inputs the per-node dispatch never raises. -/
theorem nodeDispatch_obj_ok (class_type : String) (fields : List (String × JValue)) :
    ∃ l, nodeDispatch class_type (.obj fields) = .ok l := by
  unfold nodeDispatch
  cases h : alistGet class_type MODEL_LOADERS with
  | some p =>
      obtain ⟨category, keys⟩ := p
      exact extract_from_inputs_obj_ok category fields keys
  | none =>
      by_cases hl : strHasSub class_type "Loader" = true
      · rw [hl, if_pos rfl]
        exact ⟨_, patternScan_spec class_type fields LOADER_PATTERNS⟩
      · rw [Bool.not_eq_true] at hl
        rw [hl, if_neg Bool.false_ne_true]
        exact ⟨[], rfl⟩

/-- A well-shaped node value never raises in per-node extraction. -/
theorem nodeRefs_wellShaped_ok (v : JValue) (h : wellShapedNode v = true) :
    ∃ l, nodeRefs v = .ok l := by
  cases v with
  | obj fields =>
      rw [wellShapedNode, Bool.and_eq_true] at h
      obtain ⟨h1, h2⟩ := h
      simp only [nodeRefs, jGet]
      cases hc : alistGet "class_type" fields with
      | none =>
          simp only [Option.getD_none]
          cases hi : alistGet "inputs" fields with
          | none => exact nodeDispatch_obj_ok "" []
          | some iv =>
              rw [hi] at h2
              cases iv with
              | obj f2 =>
                  simp only [Option.getD_some]
                  exact nodeDispatch_obj_ok "" f2
              | str s2 => simp [okInputsField] at h2
              | int n2 => simp [okInputsField] at h2
              | bool b2 => simp [okInputsField] at h2
              | null => simp [okInputsField] at h2
              | arr l2 => simp [okInputsField] at h2
      | some cv =>
          rw [hc] at h1
          cases cv with
          | str s =>
              simp only [Option.getD_some]
              cases hi : alistGet "inputs" fields with
              | none => exact nodeDispatch_obj_ok s []
              | some iv =>
                  rw [hi] at h2
                  cases iv with
                  | obj f2 =>
                      simp only [Option.getD_some]
                      exact nodeDispatch_obj_ok s f2
                  | str s2 => simp [okInputsField] at h2
                  | int n2 => simp [okInputsField] at h2
                  | bool b2 => simp [okInputsField] at h2
                  | null => simp [okInputsField] at h2
                  | arr l2 => simp [okInputsField] at h2
          | int n2 => simp [okClassTypeField] at h1
          | bool b2 => simp [okClassTypeField] at h1
          | null => simp [okClassTypeField] at h1
          | arr l2 => simp [okClassTypeField] at h1
          | obj f2 => simp [okClassTypeField] at h1
  | str s => simp [wellShapedNode] at h
  | int n => simp [wellShapedNode] at h
  | bool b => simp [wellShapedNode] at h
  | null => simp [wellShapedNode] at h
  | arr l => simp [wellShapedNode] at h

/-- The extraction loop never raises over well-shaped nodes, whatever the
running `seen` set is. -/
theorem extractGo_wellShaped_ok (prompt : List (String × JValue))
    (h : ∀ p ∈ prompt, wellShapedNode p.2 = true) :
    ∀ seen, ∃ refs, extractGo seen prompt = .ok refs := by
  induction prompt with
  | nil => exact fun _ => ⟨[], rfl⟩
  | cons p rest ih =>
      intro seen
      obtain ⟨nid, nd⟩ := p
      obtain ⟨l1, h1⟩ := nodeRefs_wellShaped_ok nd (h (nid, nd) (by simp))
      have ih' := ih (fun q hq => h q (List.mem_cons_of_mem _ hq))
      obtain ⟨l2, h2⟩ := ih' (dedupInto seen l1).1
      simp only [extractGo, h1, h2]
      exact ⟨_, rfl⟩

/-- The amended claim C9: for graphs whose node values are all mappings with
an absent-or-string `class_type` and an absent-or-dict `inputs`, extraction
completes without raising (missing keys get defaults, and non-string or empty
input values are skipped inside the key scans); node values outside this
shape make the whole extraction raise, as `extraction_raises_on_nonmapping_node`
shows, with the error caught only by the host hook around
`extract_and_record_models`. -/
theorem extraction_total_on_wellshaped (prompt : List (String × JValue))
    (h : ∀ p ∈ prompt, wellShapedNode p.2 = true) :
    ∃ refs, extract_models_from_prompt prompt = .ok refs :=
  extractGo_wellShaped_ok prompt h []

/-- Witness instantiating `extraction_total_on_wellshaped` on a graph mixing
a loader node, a dict node with no recognised keys, and a dict node whose
input value is empty (skipped, not fatal). -/
theorem extraction_total_on_wellshaped_witness :
    ∃ refs, extract_models_from_prompt
      [("1", .obj [("class_type", .str "CheckpointLoaderSimple"),
                   ("inputs", .obj [("ckpt_name", .str "sd15.safetensors")])]),
       ("2", .obj []),
       ("3", .obj [("class_type", .str "LoraLoader"),
                   ("inputs", .obj [("lora_name", .str "")])])]
      = .ok refs :=
  extraction_total_on_wellshaped
    [("1", .obj [("class_type", .str "CheckpointLoaderSimple"),
                 ("inputs", .obj [("ckpt_name", .str "sd15.safetensors")])]),
     ("2", .obj []),
     ("3", .obj [("class_type", .str "LoraLoader"),
                 ("inputs", .obj [("lora_name", .str "")])])]
    (by decide)

/-- Raw reference sequence: per-node extraction concatenated in node
visitation order with no deduplication (the reference point for the
deduplication property of the extraction engine). -/
def rawRefs : List (String × JValue) → Except String (List ModelRef)
  | [] => .ok []
  | (_, node_data) :: rest =>
      match nodeRefs node_data with
      | .error e => .error e
      | .ok refs =>
          match rawRefs rest with
          | .error e => .error e
          | .ok tail => .ok (refs ++ tail)

/-- Specification-side first-occurrence deduplication by derived identifier,
relative to a set of already-seen identifiers: a later occurrence of an
already-seen identifier is dropped, order is otherwise preserved. -/
def dedupById (seen : List String) : List ModelRef → List ModelRef
  | [] => []
  | m :: ms =>
      if m.model_id ∈ seen then dedupById seen ms
      else m :: dedupById (m.model_id :: seen) ms

/-- Unfolding equation for `dedupInto` on a cons cell, with the let-pattern
resolved into projections. -/
theorem dedupInto_cons (seen : List String) (m : ModelRef) (ms : List ModelRef) :
    dedupInto seen (m :: ms)
      = if m.model_id ∈ seen then dedupInto seen ms
        else ((dedupInto (m.model_id :: seen) ms).1,
              m :: (dedupInto (m.model_id :: seen) ms).2) := by
  by_cases hm : m.model_id ∈ seen
  · simp [dedupInto, hm]
  · cases hd : dedupInto (m.model_id :: seen) ms with
    | mk s kept => simp [dedupInto, hm, hd]

/-- The kept part of the threaded deduplication is the specification-side
first-occurrence deduplication. -/
theorem dedupInto_snd (ms : List ModelRef) :
    ∀ seen, (dedupInto seen ms).2 = dedupById seen ms := by
  induction ms with
  | nil => intro _; rfl
  | cons m rest ih =>
      intro seen
      rw [dedupInto_cons]
      by_cases hm : m.model_id ∈ seen
      · rw [if_pos hm, dedupById, if_pos hm, ih]
      · rw [if_neg hm, dedupById, if_neg hm]
        simpa using ih (m.model_id :: seen)

/-- First-occurrence deduplication splits over concatenation, with the seen
set threaded through the left part. -/
theorem dedupById_append (xs ys : List ModelRef) :
    ∀ seen, dedupById seen (xs ++ ys)
      = dedupById seen xs ++ dedupById (dedupInto seen xs).1 ys := by
  induction xs with
  | nil => intro _; rfl
  | cons m rest ih =>
      intro seen
      rw [List.cons_append, dedupById, dedupById, dedupInto_cons]
      by_cases hm : m.model_id ∈ seen
      · rw [if_pos hm, if_pos hm, if_pos hm, ih]
      · rw [if_neg hm, if_neg hm, if_neg hm, List.cons_append, ih]

/-- First-occurrence deduplication emits pairwise-distinct identifiers, none
of them drawn from the already-seen set. -/
theorem dedupById_nodup (ms : List ModelRef) :
    ∀ seen, ((dedupById seen ms).map (fun m => m.model_id)).Nodup
      ∧ ∀ a ∈ (dedupById seen ms).map (fun m => m.model_id), a ∉ seen := by
  induction ms with
  | nil => intro _; exact ⟨List.nodup_nil, by simp [dedupById]⟩
  | cons m rest ih =>
      intro seen
      by_cases hm : m.model_id ∈ seen
      · rw [dedupById, if_pos hm]
        exact ih seen
      · rw [dedupById, if_neg hm]
        obtain ⟨hnd, hns⟩ := ih (m.model_id :: seen)
        constructor
        · rw [List.map_cons, List.nodup_cons]
          exact ⟨fun hmem => (hns _ hmem) (List.mem_cons_self _ _), hnd⟩
        · intro a ha
          rw [List.map_cons, List.mem_cons] at ha
          rcases ha with rfl | ha
          · exact hm
          · exact fun hseen => hns a ha (List.mem_cons_of_mem _ hseen)

/-- First-occurrence deduplication is a subsequence of its input (order is
preserved, elements are only dropped). -/
theorem dedupById_sublist (ms : List ModelRef) :
    ∀ seen, (dedupById seen ms).Sublist ms := by
  induction ms with
  | nil => intro _; exact List.Sublist.refl []
  | cons m rest ih =>
      intro seen
      by_cases hm : m.model_id ∈ seen
      · rw [dedupById, if_pos hm]
        exact (ih seen).cons m
      · rw [dedupById, if_neg hm]
        exact (ih _).cons₂ m

/-- The extraction loop computes exactly the first-occurrence deduplication
of the raw reference sequence (and fails exactly when the raw scan fails). -/
theorem extractGo_eq_dedup_raw (prompt : List (String × JValue)) :
    ∀ seen, extractGo seen prompt
      = (rawRefs prompt).map (fun raw => dedupById seen raw) := by
  induction prompt with
  | nil => intro _; rfl
  | cons p rest ih =>
      intro seen
      obtain ⟨nid, nd⟩ := p
      cases h1 : nodeRefs nd with
      | error e => simp only [extractGo, rawRefs, h1, Except.map]
      | ok refs =>
          simp only [extractGo, rawRefs, h1, Except.map]
          rw [ih ((dedupInto seen refs).1)]
          cases h2 : rawRefs rest with
          | error e => simp only [h2, Except.map]
          | ok tail =>
              simp only [h2, Except.map, Except.ok.injEq]
              rw [dedupInto_snd, dedupById_append]

/-- The claim C3: whenever extraction succeeds, the returned list is the
first-occurrence deduplication (by derived identifier, across the whole
graph) of the raw per-node reference sequence taken in node-visitation order;
consequently the returned identifiers are pairwise distinct and the output is
an order-preserving subsequence of the raw sequence; and the function is
deterministic — a second run on the same graph returns the same list. -/
theorem extraction_dedup_and_order (prompt : List (String × JValue))
    (refs : List ModelRef) (h : extract_models_from_prompt prompt = .ok refs) :
    (∃ raw, rawRefs prompt = .ok raw ∧ refs = dedupById [] raw ∧ refs.Sublist raw) ∧
    (refs.map (fun m => m.model_id)).Nodup ∧
    ∀ refs2, extract_models_from_prompt prompt = .ok refs2 → refs2 = refs := by
  have hgo : extract_models_from_prompt prompt
      = (rawRefs prompt).map (fun raw => dedupById [] raw) :=
    extractGo_eq_dedup_raw prompt []
  rw [hgo] at h
  cases hraw : rawRefs prompt with
  | error e =>
      rw [hraw] at h
      simp [Except.map] at h
  | ok raw =>
      rw [hraw] at h
      simp only [Except.map, Except.ok.injEq] at h
      subst h
      refine ⟨⟨raw, rfl, rfl, dedupById_sublist raw []⟩, (dedupById_nodup raw []).1, ?_⟩
      intro refs2 h2
      rw [hgo, hraw] at h2
      simpa [Except.map] using h2.symm

/-- Sample graph for the extraction witness: two checkpoint loaders naming
the same file plus a LoRA loader. -/
def sampleDupPrompt : List (String × JValue) :=
  [("1", .obj [("class_type", .str "CheckpointLoaderSimple"),
               ("inputs", .obj [("ckpt_name", .str "a.safetensors")])]),
   ("2", .obj [("class_type", .str "CheckpointLoaderSimple"),
               ("inputs", .obj [("ckpt_name", .str "a.safetensors")])]),
   ("3", .obj [("class_type", .str "LoraLoader"),
               ("inputs", .obj [("lora_name", .str "b.safetensors")])])]

/-- Witness instantiating `extraction_dedup_and_order` on `sampleDupPrompt`:
the duplicate checkpoint reference is dropped, order is preserved. -/
theorem extraction_dedup_and_order_witness :
    (∃ raw, rawRefs sampleDupPrompt = .ok raw ∧
      [mkModelRef "checkpoint" "a.safetensors", mkModelRef "lora" "b.safetensors"]
        = dedupById [] raw ∧
      List.Sublist
        [mkModelRef "checkpoint" "a.safetensors", mkModelRef "lora" "b.safetensors"] raw) ∧
    (([mkModelRef "checkpoint" "a.safetensors",
       mkModelRef "lora" "b.safetensors"].map (fun m => m.model_id))).Nodup ∧
    ∀ refs2, extract_models_from_prompt sampleDupPrompt = .ok refs2 →
      refs2 = [mkModelRef "checkpoint" "a.safetensors", mkModelRef "lora" "b.safetensors"] :=
  extraction_dedup_and_order sampleDupPrompt
    [mkModelRef "checkpoint" "a.safetensors", mkModelRef "lora" "b.safetensors"] rfl

/-- Usage count currently stored for an identifier (0 when absent). -/
def countOfDoc (mid : String) (doc : UsageDatabase) : Nat :=
  match alistGet mid doc.models with
  | some r => r.usage_count
  | none => 0

/-- Number of times an identifier appears across all reference lists of a
sequence of recording calls. -/
def occurrencesOf (mid : String) (calls : List RecCall) : Nat :=
  (calls.map (fun c => c.refs.countP (fun m => m.model_id == mid))).sum

/-- The recording calls whose reference list mentions the identifier. -/
def callsContaining (mid : String) (calls : List RecCall) : List RecCall :=
  calls.filter (fun c => c.refs.any (fun m => m.model_id == mid))

/-- Timestamp of the most recent call whose list contains the identifier. -/
def lastIsoOf (mid : String) (calls : List RecCall) : Option String :=
  (callsContaining mid calls).getLast?.map (fun c => c.now_iso)

/-- Recording one reference leaves every other identifier's entry unchanged. -/
theorem alistGet_recordOne_ne (doc : UsageDatabase) (m : ModelRef)
    (now_iso : String) (today : Int) (mid : String) (h : m.model_id ≠ mid) :
    alistGet mid (recordOne doc m now_iso today).models = alistGet mid doc.models := by
  unfold recordOne
  cases hg : alistGet m.model_id doc.models with
  | some r => exact alistGet_setModel_ne _ _ _ _ h
  | none =>
      show alistGet mid (doc.models ++ [(m.model_id, _)]) = alistGet mid doc.models
      rw [alistGet_append]
      cases alistGet mid doc.models with
      | some v => rfl
      | none => simp [alistGet, h]

/-- Recording one reference stores the touched version of the previous entry
(or of a fresh record when the identifier is new). -/
theorem alistGet_recordOne_eq (doc : UsageDatabase) (m : ModelRef)
    (now_iso : String) (today : Int) :
    alistGet m.model_id (recordOne doc m now_iso today).models
      = some (touchRecord
          (match alistGet m.model_id doc.models with
           | some r => r
           | none => freshRecord m now_iso) now_iso today) := by
  unfold recordOne
  cases hg : alistGet m.model_id doc.models with
  | some r => exact alistGet_setModel_eq _ _ _ _ hg
  | none =>
      show alistGet m.model_id (doc.models ++ [(m.model_id, _)]) = _
      rw [alistGet_append, hg]
      simp [alistGet]

/-- Recording one reference increments that identifier's stored count. -/
theorem countOf_recordOne_eq (doc : UsageDatabase) (m : ModelRef)
    (now_iso : String) (today : Int) :
    countOfDoc m.model_id (recordOne doc m now_iso today)
      = countOfDoc m.model_id doc + 1 := by
  unfold countOfDoc
  rw [alistGet_recordOne_eq]
  cases alistGet m.model_id doc.models <;> rfl

/-- The empty-list early return of `record_usage` coincides with the fold. -/
theorem record_usage_eq_foldl (doc : UsageDatabase) (refs : List ModelRef)
    (now_iso : String) (today : Int) :
    record_usage doc refs now_iso today
      = refs.foldl (fun dd m => recordOne dd m now_iso today) doc := by
  cases refs with
  | nil => rfl
  | cons m ms => rfl

/-- Effect of one `record_usage` fold on a tracked identifier: absent
occurrences leave the entry alone; `k > 0` occurrences add `k` to the stored
count and stamp `last_used` with the call's timestamp. -/
theorem foldl_record_lookup (refs : List ModelRef) (now_iso : String) (today : Int)
    (mid : String) :
    ∀ doc : UsageDatabase,
      (refs.countP (fun m => m.model_id == mid) = 0 →
        alistGet mid (refs.foldl (fun dd m => recordOne dd m now_iso today) doc).models
          = alistGet mid doc.models) ∧
      (0 < refs.countP (fun m => m.model_id == mid) →
        ∃ r, alistGet mid
            (refs.foldl (fun dd m => recordOne dd m now_iso today) doc).models = some r ∧
          r.usage_count = countOfDoc mid doc + refs.countP (fun m => m.model_id == mid) ∧
          r.last_used = now_iso) := by
  induction refs with
  | nil =>
      intro doc
      exact ⟨fun _ => rfl, fun h => absurd h (by simp)⟩
  | cons m rest ih =>
      intro doc
      obtain ⟨ih0, ih1⟩ := ih (recordOne doc m now_iso today)
      by_cases hm : m.model_id = mid
      · have hc : (m :: rest).countP (fun m => m.model_id == mid)
            = rest.countP (fun m => m.model_id == mid) + 1 := by
          simp [List.countP_cons, hm]
        subst hm
        constructor
        · intro h0
          rw [hc] at h0
          exact absurd h0 (by omega)
        · intro _
          rw [List.foldl_cons]
          by_cases hr : rest.countP (fun mm => mm.model_id == m.model_id) = 0
          · refine ⟨touchRecord
                (match alistGet m.model_id doc.models with
                 | some r => r
                 | none => freshRecord m now_iso) now_iso today, ?_, ?_, rfl⟩
            · rw [ih0 hr]
              exact alistGet_recordOne_eq doc m now_iso today
            · rw [hc, hr]
              unfold countOfDoc
              cases alistGet m.model_id doc.models <;> rfl
          · obtain ⟨r, hr1, hr2, hr3⟩ := ih1 (Nat.pos_of_ne_zero hr)
            refine ⟨r, hr1, ?_, hr3⟩
            rw [hr2, countOf_recordOne_eq, hc]
            omega
      · have hc : (m :: rest).countP (fun m => m.model_id == mid)
            = rest.countP (fun m => m.model_id == mid) := by
          simp [List.countP_cons, hm]
        have hne := alistGet_recordOne_ne doc m now_iso today mid hm
        have hco : countOfDoc mid (recordOne doc m now_iso today) = countOfDoc mid doc := by
          unfold countOfDoc
          rw [hne]
        constructor
        · intro h0
          rw [hc] at h0
          rw [List.foldl_cons, ih0 h0, hne]
        · intro hpos
          rw [hc] at hpos
          obtain ⟨r, h1, h2, h3⟩ := ih1 hpos
          refine ⟨r, ?_, ?_, h3⟩
          · rw [List.foldl_cons]
            exact h1
          · rw [h2, hco, hc]

/-- An identifier that occurs in none of a list of calls is mentioned by no
call, so the containing-calls filter is empty. -/
theorem callsContaining_eq_nil (mid : String) (cs : List RecCall)
    (h : occurrencesOf mid cs = 0) : callsContaining mid cs = [] := by
  rw [callsContaining, List.filter_eq_nil_iff]
  intro c hc
  have hz : c.refs.countP (fun m => m.model_id == mid) = 0 := by
    unfold occurrencesOf at h
    rw [List.sum_eq_zero_iff] at h
    exact h _ (List.mem_map_of_mem _ hc)
  rw [List.countP_eq_zero] at hz
  simp only [List.any_eq_true, not_exists]
  intro x hx
  exact hz x hx.1 hx.2

/-- An identifier with a positive occurrence count is mentioned by at least
one call, so the containing-calls filter is non-empty. -/
theorem callsContaining_ne_nil (mid : String) (cs : List RecCall)
    (h : 0 < occurrencesOf mid cs) : callsContaining mid cs ≠ [] := by
  intro hnil
  rw [callsContaining, List.filter_eq_nil_iff] at hnil
  have : occurrencesOf mid cs = 0 := by
    unfold occurrencesOf
    rw [List.sum_eq_zero_iff]
    intro x hx
    obtain ⟨c, hc, rfl⟩ := List.mem_map.mp hx
    rw [List.countP_eq_zero]
    intro a ha hb
    exact hnil c hc (by rw [List.any_eq_true]; exact ⟨a, ha, hb⟩)
  omega

/-- Effect of a fold of `record_usage` calls on a tracked identifier,
relative to an arbitrary starting document. -/
theorem foldl_calls_lookup (calls : List RecCall) (mid : String) :
    ∀ doc : UsageDatabase,
      (occurrencesOf mid calls = 0 →
        alistGet mid
          (calls.foldl (fun dd c => record_usage dd c.refs c.now_iso c.today) doc).models
          = alistGet mid doc.models) ∧
      (0 < occurrencesOf mid calls →
        ∃ r, alistGet mid
            (calls.foldl (fun dd c => record_usage dd c.refs c.now_iso c.today) doc).models
            = some r ∧
          r.usage_count = countOfDoc mid doc + occurrencesOf mid calls ∧
          some r.last_used = lastIsoOf mid calls) := by
  induction calls with
  | nil =>
      intro doc
      exact ⟨fun _ => rfl, fun h => absurd h (by simp [occurrencesOf])⟩
  | cons c cs ih =>
      intro doc
      have hocc : occurrencesOf mid (c :: cs)
          = c.refs.countP (fun m => m.model_id == mid) + occurrencesOf mid cs := by
        simp [occurrencesOf]
      have hdoc1 := record_usage_eq_foldl doc c.refs c.now_iso c.today
      have hcall := foldl_record_lookup c.refs c.now_iso c.today mid doc
      obtain ⟨ih0, ih1⟩ := ih (record_usage doc c.refs c.now_iso c.today)
      rw [List.foldl_cons]
      by_cases hcnt : c.refs.countP (fun m => m.model_id == mid) = 0
      · have hlook : alistGet mid (record_usage doc c.refs c.now_iso c.today).models
            = alistGet mid doc.models := by
          rw [hdoc1]
          exact hcall.1 hcnt
        have hco : countOfDoc mid (record_usage doc c.refs c.now_iso c.today)
            = countOfDoc mid doc := by
          unfold countOfDoc
          rw [hlook]
        have hcontain : (c.refs.any (fun m => m.model_id == mid)) = false := by
          rw [List.countP_eq_zero] at hcnt
          simp only [List.any_eq_false]
          exact hcnt
        have hlast : lastIsoOf mid (c :: cs) = lastIsoOf mid cs := by
          unfold lastIsoOf callsContaining
          rw [List.filter_cons, if_neg (by simp [hcontain])]
        constructor
        · intro h0
          rw [hocc, hcnt, Nat.zero_add] at h0
          rw [ih0 h0, hlook]
        · intro hpos
          rw [hocc, hcnt, Nat.zero_add] at hpos
          obtain ⟨r, h1, h2, h3⟩ := ih1 hpos
          refine ⟨r, h1, ?_, by rw [h3, hlast]⟩
          rw [h2, hco, hocc, hcnt]
          omega
      · have hpos1 : 0 < c.refs.countP (fun m => m.model_id == mid) :=
          Nat.pos_of_ne_zero hcnt
        obtain ⟨r1, h1, h2, h3⟩ := hcall.2 hpos1
        have hlook : alistGet mid (record_usage doc c.refs c.now_iso c.today).models
            = some r1 := by
          rw [hdoc1]
          exact h1
        have hco : countOfDoc mid (record_usage doc c.refs c.now_iso c.today)
            = countOfDoc mid doc + c.refs.countP (fun m => m.model_id == mid) := by
          unfold countOfDoc
          rw [hlook]
          exact h2
        have hcontain : (c.refs.any (fun m => m.model_id == mid)) = true := by
          rw [List.countP_pos_iff] at hpos1
          rw [List.any_eq_true]
          obtain ⟨a, ha, hb⟩ := hpos1
          exact ⟨a, ha, hb⟩
        have hfilter : callsContaining mid (c :: cs) = c :: callsContaining mid cs := by
          unfold callsContaining
          rw [List.filter_cons, if_pos (by simp [hcontain])]
        constructor
        · intro h0
          rw [hocc] at h0
          omega
        · intro _
          by_cases hrest : occurrencesOf mid cs = 0
          · refine ⟨r1, ?_, ?_, ?_⟩
            · rw [ih0 hrest, hlook]
            · rw [hocc, hrest, h2]
              omega
            · rw [h3]
              unfold lastIsoOf
              rw [hfilter, callsContaining_eq_nil mid cs hrest]
              rfl
          · obtain ⟨r, k1, k2, k3⟩ := ih1 (Nat.pos_of_ne_zero hrest)
            refine ⟨r, k1, ?_, ?_⟩
            · rw [k2, hco, hocc]
              omega
            · rw [k3]
              unfold lastIsoOf
              rw [hfilter]
              have hne := callsContaining_ne_nil mid cs (Nat.pos_of_ne_zero hrest)
              cases hcc : callsContaining mid cs with
              | nil => exact absurd hcc hne
              | cons b bs => rw [List.getLast?_cons_cons]

/-- The claim C1: starting from the empty document, after any sequence of
`record_usage` calls a model identifier that never occurred has no record,
and one that occurred has a record whose `usage_count` is exactly its number
of occurrences across all recorded lists and whose `last_used` is the
timestamp of the most recent call whose list contained it. -/
theorem record_usage_counts_and_last_used (calls : List RecCall) (mid : String) :
    (occurrencesOf mid calls = 0 → alistGet mid (runCalls calls).models = none) ∧
    (0 < occurrencesOf mid calls →
      ∃ r, alistGet mid (runCalls calls).models = some r ∧
        r.usage_count = occurrencesOf mid calls ∧
        some r.last_used = lastIsoOf mid calls) := by
  obtain ⟨h0, h1⟩ := foldl_calls_lookup calls mid (create_empty_data "t0")
  constructor
  · intro h
    exact (h0 h).trans rfl
  · intro h
    obtain ⟨r, hr1, hr2, hr3⟩ := h1 h
    refine ⟨r, hr1, ?_, hr3⟩
    have hz : countOfDoc mid (create_empty_data "t0") = 0 := rfl
    rw [hr2, hz, Nat.zero_add]

/-- Witness instantiating `record_usage_counts_and_last_used`: two calls, the
checkpoint reference appearing in both (the second time after a LoRA), ending
with count 2 and the second call's timestamp. -/
theorem record_usage_counts_and_last_used_witness :
    0 < occurrencesOf "checkpoint/x"
        [{ refs := [mkModelRef "checkpoint" "x"], now_iso := "T1", today := 3 },
         { refs := [mkModelRef "lora" "y", mkModelRef "checkpoint" "x"],
           now_iso := "T2", today := 4 }] ∧
    ∃ r, alistGet "checkpoint/x" (runCalls
        [{ refs := [mkModelRef "checkpoint" "x"], now_iso := "T1", today := 3 },
         { refs := [mkModelRef "lora" "y", mkModelRef "checkpoint" "x"],
           now_iso := "T2", today := 4 }]).models = some r ∧
      r.usage_count = occurrencesOf "checkpoint/x"
        [{ refs := [mkModelRef "checkpoint" "x"], now_iso := "T1", today := 3 },
         { refs := [mkModelRef "lora" "y", mkModelRef "checkpoint" "x"],
           now_iso := "T2", today := 4 }] ∧
      some r.last_used = lastIsoOf "checkpoint/x"
        [{ refs := [mkModelRef "checkpoint" "x"], now_iso := "T1", today := 3 },
         { refs := [mkModelRef "lora" "y", mkModelRef "checkpoint" "x"],
           now_iso := "T2", today := 4 }] :=
  ⟨by decide,
   (record_usage_counts_and_last_used
      [{ refs := [mkModelRef "checkpoint" "x"], now_iso := "T1", today := 3 },
       { refs := [mkModelRef "lora" "y", mkModelRef "checkpoint" "x"],
         now_iso := "T2", today := 4 }] "checkpoint/x").2 (by decide)⟩

/-- A daily log satisfies the invariant at bound `d`: strictly ascending
dates (hence at most one entry per date, with the latest date last) and all
dates at most `d`. -/
def logInv (log : List LogEntry) (d : Int) : Prop :=
  log.Pairwise (fun a b => a.date < b.date) ∧ ∀ e ∈ log, e.date ≤ d

/-- The daily-log update preserves the invariant when time moves forward:
bumping a log bounded by `d ≤ today` yields a log bounded by `today`, still
strictly ascending. -/
theorem bumpLog_inv (log : List LogEntry) (d today : Int)
    (hinv : logInv log d) (hd : d ≤ today) :
    logInv (bumpLog log today) today := by
  obtain ⟨hpw, hbd⟩ := hinv
  unfold bumpLog
  cases hl : log.getLast? with
  | none =>
      rw [List.getLast?_eq_none_iff] at hl
      subst hl
      constructor
      · rw [List.nil_append]
        exact List.pairwise_singleton _ _
      · intro e he
        rw [List.nil_append, List.mem_singleton] at he
        subst he
        exact le_refl today
  | some e0 =>
      have hne : log ≠ [] := by
        intro h
        rw [h] at hl
        simp at hl
      have hsplit := List.dropLast_append_getLast hne
      have hlast : log.getLast hne = e0 := by
        rw [List.getLast?_eq_getLast log hne] at hl
        exact Option.some.inj hl
      have hcross : ∀ a ∈ log.dropLast, a.date < e0.date := by
        intro a ha
        have hpw' := hpw
        rw [← hsplit] at hpw'
        obtain ⟨-, -, hc⟩ := List.pairwise_append.mp hpw'
        have := hc a ha (log.getLast hne) (by simp)
        rwa [hlast] at this
      have he0mem : e0 ∈ log := by
        rw [← hsplit]
        refine List.mem_append.mpr (Or.inr ?_)
        rw [hlast]
        exact List.mem_singleton.mpr rfl
      show logInv (if e0.date = today then
          log.dropLast ++ [{ date := e0.date, count := e0.count + 1 }]
        else log ++ [{ date := today, count := 1 }]) today
      by_cases he : e0.date = today
      · rw [if_pos he]
        constructor
        · refine List.pairwise_append.mpr ⟨?_, List.pairwise_singleton _ _, ?_⟩
          · have hpw' := hpw
            rw [← hsplit] at hpw'
            exact (List.pairwise_append.mp hpw').1
          · intro a ha b hb
            rw [List.mem_singleton] at hb
            subst hb
            exact hcross a ha
        · intro e he'
          rw [List.mem_append] at he'
          rcases he' with h1 | h1
          · exact le_of_lt (he ▸ hcross e h1)
          · rw [List.mem_singleton] at h1
            subst h1
            exact le_of_eq he
      · rw [if_neg he]
        have he0d : e0.date ≤ d := hbd e0 he0mem
        have he0lt : e0.date < today := lt_of_le_of_ne (le_trans he0d hd) he
        constructor
        · refine List.pairwise_append.mpr ⟨hpw, List.pairwise_singleton _ _, ?_⟩
          intro a ha b hb
          rw [List.mem_singleton] at hb
          subst hb
          show a.date < today
          rw [← hsplit, List.mem_append] at ha
          rcases ha with h1 | h1
          · exact lt_trans (hcross a h1) he0lt
          · rw [List.mem_singleton] at h1
            subst h1
            rw [hlast]
            exact he0lt
        · intro e he'
          rw [List.mem_append] at he'
          rcases he' with h1 | h1
          · exact le_trans (hbd e h1) hd
          · rw [List.mem_singleton] at h1
            subst h1
            exact le_refl today

/-- Every record of the document satisfies the daily-log invariant at `d`. -/
def docInv (doc : UsageDatabase) (d : Int) : Prop :=
  ∀ mid r, alistGet mid doc.models = some r → logInv r.usage_log d

/-- The invariant bound is monotone. -/
theorem docInv_mono (doc : UsageDatabase) (d d' : Int) (h : docInv doc d)
    (hd : d ≤ d') : docInv doc d' := by
  intro mid r hr
  obtain ⟨hpw, hbd⟩ := h mid r hr
  exact ⟨hpw, fun e he => le_trans (hbd e he) hd⟩

/-- Recording one reference at a date `today` no earlier than the current
bound re-establishes the invariant at `today`. -/
theorem recordOne_docInv (doc : UsageDatabase) (m : ModelRef) (now_iso : String)
    (d today : Int) (h : docInv doc d) (hd : d ≤ today) :
    docInv (recordOne doc m now_iso today) today := by
  intro mid r hr
  by_cases hm : m.model_id = mid
  · subst hm
    rw [alistGet_recordOne_eq] at hr
    have hr' := Option.some.inj hr
    subst hr'
    show logInv (bumpLog _ today) today
    cases hg : alistGet m.model_id doc.models with
    | some r0 => exact bumpLog_inv _ d today (h _ r0 hg) hd
    | none => exact bumpLog_inv _ d today ⟨List.Pairwise.nil, by simp [freshRecord]⟩ hd
  · rw [alistGet_recordOne_ne doc m now_iso today mid hm] at hr
    exact docInv_mono doc d today (fun mid' r' hr' => h mid' r' hr') hd mid r hr

/-- Recording a whole reference list at date `today` re-establishes the
invariant at `today`. -/
theorem record_usage_docInv (doc : UsageDatabase) (refs : List ModelRef)
    (now_iso : String) (d today : Int) (h : docInv doc d) (hd : d ≤ today) :
    docInv (record_usage doc refs now_iso today) today := by
  rw [record_usage_eq_foldl]
  have hbase : docInv doc today := docInv_mono doc d today h hd
  clear h hd
  induction refs generalizing doc with
  | nil => exact hbase
  | cons m rest ih =>
      rw [List.foldl_cons]
      exact ih (recordOne doc m now_iso today)
        (recordOne_docInv doc m now_iso today today hbase (le_refl today))

/-- Folding recording calls with non-decreasing dates, all bounded by `dmax`,
starting from a document satisfying the invariant at a bound below every call
date, yields a document satisfying the invariant at `dmax`. -/
theorem foldl_calls_docInv (calls : List RecCall) :
    ∀ (doc : UsageDatabase) (d : Int), docInv doc d →
      (∀ c ∈ calls, d ≤ c.today) →
      List.Pairwise (fun a b => a.today ≤ b.today) calls →
      ∀ dmax, d ≤ dmax → (∀ c ∈ calls, c.today ≤ dmax) →
      docInv (calls.foldl (fun dd c => record_usage dd c.refs c.now_iso c.today) doc) dmax := by
  induction calls with
  | nil =>
      intro doc d h _ _ dmax hdm _
      exact docInv_mono doc d dmax h hdm
  | cons c cs ih =>
      intro doc d h hlb hpw dmax hdm hub
      rw [List.foldl_cons]
      have h1 : docInv (record_usage doc c.refs c.now_iso c.today) c.today :=
        record_usage_docInv doc c.refs c.now_iso d c.today h (hlb c (by simp))
      rw [List.pairwise_cons] at hpw
      exact ih (record_usage doc c.refs c.now_iso c.today) c.today h1
        hpw.1 hpw.2 dmax (hub c (by simp)) (fun c' hc' => hub c' (by simp [hc']))

/-- The claim C2: (1) replaying any sequence of recording calls with
non-decreasing dates from the empty document leaves every model's `usage_log`
strictly ascending by date — hence with at most one entry per calendar date —
with all dates bounded by any upper bound of the call dates and every
non-final entry strictly before the final one (the current date's entry, when
present, is last); and (2) recording the same reference twice on the same
date yields a single log entry with count 2, not two entries. -/
theorem usage_log_daily_invariant :
    (∀ (calls : List RecCall) (dmax : Int),
      List.Pairwise (fun a b => a.today ≤ b.today) calls →
      (∀ c ∈ calls, c.today ≤ dmax) →
      ∀ mid r, alistGet mid (runCalls calls).models = some r →
        r.usage_log.Pairwise (fun a b => a.date < b.date) ∧
        (∀ e ∈ r.usage_log, e.date ≤ dmax) ∧
        (∀ e ∈ r.usage_log.dropLast, ∀ elast, r.usage_log.getLast? = some elast →
          e.date < elast.date)) ∧
    (∀ (ref : ModelRef) (iso1 iso2 : String) (d0 : Int),
      ∃ r, alistGet ref.model_id
          (runCalls [{ refs := [ref], now_iso := iso1, today := d0 },
                     { refs := [ref], now_iso := iso2, today := d0 }]).models = some r ∧
        r.usage_count = 2 ∧ r.usage_log = [{ date := d0, count := 2 }]) := by
  constructor
  · intro calls dmax hpw hub mid r hr
    have hinv : docInv (runCalls calls) dmax := by
      cases calls with
      | nil =>
          intro mid' r' hr'
          simp [runCalls, create_empty_data, alistGet] at hr'
      | cons c cs =>
          have hlb : ∀ c' ∈ c :: cs, c.today ≤ c'.today := by
            intro c' hc'
            rcases List.mem_cons.mp hc' with h1 | h1
            · rw [h1]
            · rw [List.pairwise_cons] at hpw
              exact hpw.1 c' h1
          exact foldl_calls_docInv (c :: cs) (create_empty_data "t0") c.today
            (by intro mid' r' hr'; simp [create_empty_data, alistGet] at hr')
            hlb hpw dmax (hub c (by simp)) hub
    obtain ⟨h1, h2⟩ := hinv mid r hr
    refine ⟨h1, h2, ?_⟩
    intro e he elast hlaste
    have hne : r.usage_log ≠ [] := by
      intro hnil
      rw [hnil] at hlaste
      simp at hlaste
    have hsplit := List.dropLast_append_getLast hne
    have hlast : r.usage_log.getLast hne = elast := by
      rw [List.getLast?_eq_getLast _ hne] at hlaste
      exact Option.some.inj hlaste
    have hpw' := h1
    rw [← hsplit] at hpw'
    obtain ⟨-, -, hc⟩ := List.pairwise_append.mp hpw'
    have := hc e he (r.usage_log.getLast hne) (by simp)
    rwa [hlast] at this
  · intro ref iso1 iso2 d0
    have hrun : runCalls [{ refs := [ref], now_iso := iso1, today := d0 },
                          { refs := [ref], now_iso := iso2, today := d0 }]
        = recordOne (recordOne (create_empty_data "t0") ref iso1 d0) ref iso2 d0 := by
      show record_usage (record_usage (create_empty_data "t0") [ref] iso1 d0) [ref] iso2 d0
          = _
      rw [record_usage_eq_foldl, record_usage_eq_foldl]
      rfl
    have hl1 : alistGet ref.model_id
        (recordOne (create_empty_data "t0") ref iso1 d0).models
        = some (touchRecord (freshRecord ref iso1) iso1 d0) :=
      alistGet_recordOne_eq (create_empty_data "t0") ref iso1 d0
    have hl2 := alistGet_recordOne_eq
      (recordOne (create_empty_data "t0") ref iso1 d0) ref iso2 d0
    rw [hl1] at hl2
    refine ⟨touchRecord (touchRecord (freshRecord ref iso1) iso1 d0) iso2 d0,
      ?_, rfl, ?_⟩
    · rw [hrun]
      exact hl2
    · show bumpLog (bumpLog [] d0) d0 = [{ date := d0, count := 2 }]
      simp [bumpLog]

/-- Witness instantiating `usage_log_daily_invariant`: part one on two calls
with dates 5 then 6 bounded by 6, part two recording the same checkpoint
twice on day 7. -/
theorem usage_log_daily_invariant_witness :
    (∀ mid r, alistGet mid (runCalls
        [{ refs := [mkModelRef "checkpoint" "x"], now_iso := "T1", today := 5 },
         { refs := [mkModelRef "checkpoint" "x"], now_iso := "T2", today := 6 }]).models
        = some r →
      r.usage_log.Pairwise (fun a b => a.date < b.date) ∧
      (∀ e ∈ r.usage_log, e.date ≤ 6) ∧
      (∀ e ∈ r.usage_log.dropLast, ∀ elast, r.usage_log.getLast? = some elast →
        e.date < elast.date)) ∧
    (∃ r, alistGet (mkModelRef "checkpoint" "x").model_id (runCalls
        [{ refs := [mkModelRef "checkpoint" "x"], now_iso := "T1", today := 7 },
         { refs := [mkModelRef "checkpoint" "x"], now_iso := "T2", today := 7 }]).models
        = some r ∧
      r.usage_count = 2 ∧ r.usage_log = [{ date := 7, count := 2 }]) :=
  ⟨usage_log_daily_invariant.1
      [{ refs := [mkModelRef "checkpoint" "x"], now_iso := "T1", today := 5 },
       { refs := [mkModelRef "checkpoint" "x"], now_iso := "T2", today := 6 }]
      6 (by decide) (by decide),
   usage_log_daily_invariant.2 (mkModelRef "checkpoint" "x") "T1" "T2" 7⟩
